import Mathlib

/-!
A shallow embedding of the chipmunk session core: the incremental search
engine (processor/src/search.rs) and the session state actor
(session/src/state.rs).  File contents are modelled as `List Char`
(one byte per character; the corpora of interest are ASCII), paths as
plain `String` identifiers, and the external regex engine as a
denotation function from pattern strings to line predicates.
-/

namespace Chipmunk

/-- ASCII lower-casing of one character; used to model the case-insensitive
flag of the external regex engine on ASCII input. -/
def lowChar (c : Char) : Char :=
  if 'A' ≤ c ∧ c ≤ 'Z' then Char.ofNat (c.toNat + 32) else c

/-- ASCII lower-casing of a line. -/
def lowStr (s : List Char) : List Char := s.map lowChar

/-- Split a byte sequence into lines, each keeping its terminating
newline (the final line may lack one). -/
def linesKeep : List Char → List (List Char)
  | [] => []
  | c :: rest =>
    if c = '\n' then ['\n'] :: linesKeep rest
    else
      match linesKeep rest with
      | [] => [[c]]
      | l :: ls => (c :: l) :: ls

/-- Remove a line's trailing newline, when present. -/
def stripNl (l : List Char) : List Char :=
  match l.getLast? with
  | some '\n' => l.dropLast
  | _ => l

/-- Rust `str::lines` (and the grep searcher's line segmentation) on
newline-terminated text: lines without their terminators; a trailing
newline does not create an extra empty line. -/
def linesOf (s : List Char) : List (List Char) := (linesKeep s).map stripNl

/-- Line count of a text, as `lines().count()` computes it. -/
def linesCount (s : List Char) : Nat := (linesOf s).length

/-- Number the elements of a list consecutively starting at `k`. -/
def numbered (k : Nat) : List α → List (Nat × α)
  | [] => []
  | a :: as => (k, a) :: numbered (k + 1) as

/-- `SearchFilter` from processor/src/search.rs. -/
structure SearchFilter where
  value : String
  is_regex : Bool
  ignore_case : Bool
  is_word : Bool
deriving DecidableEq, Repr

/-- The characters that `escape` in processor/src/search.rs prefixes with a
backslash (the source builds a map over this very character string). -/
def escapedChars : List Char := "\x7b\x7d[]+$^/!.*|():?,=<>\\".toList

/-- Concatenate a list of strings in order. -/
def strConcat : List String → String
  | [] => ""
  | s :: ss => s ++ strConcat ss

/-- `escape` from processor/src/search.rs: prefix every character of the
escape set with a backslash, leave the rest unchanged. -/
def escape (value : String) : String :=
  strConcat (value.toList.map fun c =>
    if c ∈ escapedChars then String.mk ['\\', c] else String.mk [c])

/-- `filter_as_regex` from processor/src/search.rs. -/
def filter_as_regex (filter : SearchFilter) : String :=
  let word_marker := if filter.is_word then "\\b" else ""
  let ignore_case_start := if filter.ignore_case then "(?i)" else ""
  let ignore_case_end := if filter.ignore_case then "(?-i)" else ""
  let subject := if filter.is_regex then filter.value else escape filter.value
  ignore_case_start ++ word_marker ++ subject ++ word_marker ++ ignore_case_end

/-- `FilterMatch` from processor/src/map.rs, as used by search.rs:
a matched line's 0-based index together with the indices of the filters
that match it. -/
structure FilterMatch where
  index : Nat
  filters : List Nat
deriving DecidableEq, Repr

/-- `SearchError` from processor/src/search.rs (payload messages kept). -/
inductive SearchError where
  | Config (msg : String)
  | Communication (msg : String)
  | IoOperation (msg : String)
  | Regex (msg : String)
  | Input (msg : String)
  | Grab (msg : String)
deriving DecidableEq, Repr

/-- `SearchHolder` from processor/src/search.rs: the filters and the
byte/line cursor into the session file. -/
structure SearchHolder where
  file_path : String
  out_file_path : String
  search_filters : List SearchFilter
  bytes_read : Nat
  lines_read : Nat
deriving DecidableEq, Repr

/-- `SearchHolder::new`: fresh cursor, output path `<path>.out`. -/
def SearchHolder.new (path : String) (filters : List SearchFilter) : SearchHolder :=
  ⟨path, path ++ ".out", filters, 0, 0⟩

/-- The denotation of the external regex engine: a pattern string becomes a
predicate on line contents.  The engine is an external crate; the code relies
on the engine fact that the combined pattern `(p1|...|pN)` matches a line iff
some `pi` does, which the embedding realises by testing the per-filter
matchers directly. -/
abbrev RegexSem := String → List Char → Bool

/-- The per-filter matcher indices that match a line, collected in filter
order starting at index `k` (the enumerate loop of `execute_search`). -/
def matchIndicesFrom (k : Nat) : List (List Char → Bool) → List Char → List Nat
  | [], _ => []
  | m :: ms, line =>
    if m line then k :: matchIndicesFrom (k + 1) ms line
    else matchIndicesFrom (k + 1) ms line

/-- The matcher indices matching a line (`for (index, re) in matchers`). -/
def matchIndices (ms : List (List Char → Bool)) (line : List Char) : List Nat :=
  matchIndicesFrom 0 ms line

/-- The all-zero per-filter hit statistics. -/
def noStats : Nat → Nat := fun _ => 0

/-- Increment the statistics of every index in `fs` (one matched line). -/
def bump (fs : List Nat) (st : Nat → Nat) : Nat → Nat :=
  fun i => (if i ∈ fs then 1 else 0) + st i

/-- The sink loop of `SearchHolder::execute_search`: walk the lines of the
scanned region with 1-based local line numbers starting at `lnum`; on each
line the combined matcher accepts, record a `FilterMatch` at absolute index
`lnum + lines_read - 1`, bump the per-filter statistics, and append the
absolute index and a newline to the result-file output. -/
def searchLines (ms : List (List Char → Bool)) (lr : Nat) :
    Nat → List (List Char) → List FilterMatch × (Nat → Nat) × String
  | _, [] => ([], noStats, "")
  | lnum, line :: rest =>
    let tail := searchLines ms lr (lnum + 1) rest
    if ms.any (fun m => m line) then
      let fs := matchIndices ms line
      (⟨lnum + lr - 1, fs⟩ :: tail.1,
       bump fs tail.2.1,
       Nat.repr (lnum + lr - 1) ++ "\n" ++ tail.2.2)
    else tail

/-- The outcome of one `execute_search` run: updated holder, the batch of
matches, the per-filter hit counts, and the result file's content. -/
structure SearchOut where
  holder : SearchHolder
  found : List FilterMatch
  stats : Nat → Nat
  outContent : String

/-- `SearchHolder::execute_search` from processor/src/search.rs.  Empty
filter list is an input error.  Otherwise the reader is seeked to
`bytes_read + 1`, the complete lines from there are pre-counted into
`lines_read`, the combined matcher is driven over the same region, and
`bytes_read` becomes the reader's final position (end of file, or the seek
target when it already lies at or beyond end of file). -/
def execute_search (sem : RegexSem) (h : SearchHolder) (content : List Char)
    (outContent : String) : Except SearchError SearchOut :=
  if h.search_filters = [] then
    .error (.Input "Cannot search without filters")
  else
    let ms := h.search_filters.map (fun f => sem (filter_as_regex f))
    let region := content.drop (h.bytes_read + 1)
    let extra := (linesOf region).length
    let r := searchLines ms h.lines_read 1 (linesOf region)
    .ok ⟨{ h with bytes_read := Nat.max (h.bytes_read + 1) content.length,
                  lines_read := h.lines_read + extra },
         r.1, r.2.1, outContent ++ r.2.2⟩

/-- The holder an `execute_search` run leaves behind (unchanged on error). -/
def holderAfter (sem : RegexSem) (h : SearchHolder) (content : List Char)
    (outContent : String) : SearchHolder :=
  match execute_search sem h content outContent with
  | .ok o => o.holder
  | .error _ => h

/-- Run `execute_search` over a sequence of session-file snapshots,
threading the holder (no intervening DropSearch). -/
def runSearchSeq (sem : RegexSem) : SearchHolder → List (List Char) → SearchHolder
  | h, [] => h
  | h, c :: cs => runSearchSeq sem (holderAfter sem h c "") cs

/-- Modelled from the spec: the sink loop of the cancellable
`execute_search(cancel_token)` that session/src/state.rs invokes (the
search.rs excerpt under src/ predates the token parameter).  The token is
modelled by the number of match callbacks observed before cancellation
fires (`none`: never cancelled).  It walks the terminator-keeping lines of
the region; on a cancelled match callback iteration stops before the line
is consumed, so the byte count covers fully consumed lines only.  Returns
the matches, the per-filter statistics, the result-file output, and the
number of region bytes consumed. -/
def searchLinesC (ms : List (List Char → Bool)) (lr : Nat) :
    Option Nat → Nat → List (List Char) →
      List FilterMatch × (Nat → Nat) × String × Nat
  | _, _, [] => ([], noStats, "", 0)
  | fuel, lnum, l :: rest =>
    let body := stripNl l
    if ms.any (fun m => m body) then
      match fuel with
      | some 0 => ([], noStats, "", 0)
      | some (n + 1) =>
        let t := searchLinesC ms lr (some n) (lnum + 1) rest
        (⟨lnum + lr - 1, matchIndices ms body⟩ :: t.1,
         bump (matchIndices ms body) t.2.1,
         Nat.repr (lnum + lr - 1) ++ "\n" ++ t.2.2.1,
         l.length + t.2.2.2)
      | none =>
        let t := searchLinesC ms lr none (lnum + 1) rest
        (⟨lnum + lr - 1, matchIndices ms body⟩ :: t.1,
         bump (matchIndices ms body) t.2.1,
         Nat.repr (lnum + lr - 1) ++ "\n" ++ t.2.2.1,
         l.length + t.2.2.2)
    else
      let t := searchLinesC ms lr fuel (lnum + 1) rest
      (t.1, t.2.1, t.2.2.1, l.length + t.2.2.2)

/-- Modelled from the spec: `execute_search(cancel_token)` — the variant of
`execute_search` honoring a cancellation token at each match callback;
cancellation is not an error, the partial batch is returned as success and
`bytes_read` advances only over the fully consumed lines. -/
def execute_search_cancellable (sem : RegexSem) (fuel : Option Nat)
    (h : SearchHolder) (content : List Char) (outContent : String) :
    Except SearchError SearchOut :=
  if h.search_filters = [] then
    .error (.Input "Cannot search without filters")
  else
    let ms := h.search_filters.map (fun f => sem (filter_as_regex f))
    let region := content.drop (h.bytes_read + 1)
    let extra := (linesOf region).length
    let r := searchLinesC ms h.lines_read fuel 1 (linesKeep region)
    .ok ⟨{ h with bytes_read := h.bytes_read + 1 + r.2.2.2,
                  lines_read := h.lines_read + extra },
         r.1, r.2.1, outContent ++ r.2.2.1⟩

/-- The S1 corpus of the spec (and of the search.rs unit tests), joined by
newlines without a trailing newline, exactly as the tests write it. -/
def s1Logs : List String :=
  ["[Info](1.3): a", "[Warn](1.4): b", "[Info](1.5): c",
   "[Err](1.6): d", "[Info](1.7): e", "[Info](1.8): f"]

def s1Content : List Char := (String.intercalate "\n" s1Logs).toList

/-- The two S1 filters. -/
def s1Filters : List SearchFilter :=
  [⟨"[Err]", false, true, false⟩, ⟨"\\[Warn\\]", true, true, false⟩]

/-- `atFront pat s`: does `s` start with `pat`? -/
def atFront : List Char → List Char → Bool
  | [], _ => true
  | _ :: _, [] => false
  | p :: ps, c :: cs => p = c && atFront ps cs

/-- `containsSeq pat s`: does `pat` occur contiguously inside `s`? -/
def containsSeq (pat : List Char) : List Char → Bool
  | [] => atFront pat []
  | c :: cs => atFront pat (c :: cs) || containsSeq pat cs

/-- Case-insensitive literal containment: the denotation of a pattern of the
shape case-insensitive-literal on ASCII lines. -/
def ciLit (lit : String) (line : List Char) : Bool :=
  containsSeq (lowStr lit.toList) (lowStr line)

/-- Modelled from the spec: the external regex engine's denotation at the two
patterns `filter_as_regex` compiles for the S1 filters — both are
case-insensitive literals. -/
def s1Sem : RegexSem := fun pat line =>
  if pat = "(?i)\\[Err\\](?-i)" then ciLit "[Err]" line
  else if pat = "(?i)\\[Warn\\](?-i)" then ciLit "[Warn]" line
  else false

/-- Case-sensitive literal containment: the denotation of a
metacharacter-free pattern. -/
def litSem : RegexSem := fun pat line => containsSeq pat.toList line

/-- The fresh S1 holder over the session file. -/
def s1Holder : SearchHolder := SearchHolder.new "session" s1Filters

/-- The error kinds the session state handlers return (messages elided). -/
inductive NErr where
  | notAssigned
  | grabberNotInited
  | holderBusy
  | noSessionFileForHolder
  | holderNotInUse
deriving DecidableEq, Repr

/-- The callback events of session/src/state.rs. -/
inductive Event where
  | StreamUpdated (n : Nat)
  | SearchUpdated (n : Nat)
  | SearchMapUpdated (s : Option String)
  | FileRead
deriving DecidableEq, Repr

/-- `SearchHolderState` from session/src/state.rs. -/
inductive HolderSt where
  | NotInited
  | Available (h : SearchHolder)
  | InUse
deriving DecidableEq, Repr

/-- `SessionState` from session/src/state.rs.  The on-disk session file
content, the buffered (unflushed) writer bytes, the content grabber's
metadata line count (`log_entry_count().unwrap_or(0)`; the Grabber itself is
modelled from the spec as a rescannable line count over its file), the
search holder slot, the result file's content, and the search grabber's
count.  Timestamps are external: the 250 ms debounce comparison enters the
write handler as a boolean input. -/
structure Sess where
  session_file : Option String
  fileContent : List Char
  writerBuf : Option (List Char)
  session_has_updates : Bool
  grabberOn : Bool
  grabberCount : Nat
  holderSt : HolderSt
  outContent : String
  searchGrabberOn : Bool
  searchGrabberCount : Nat
  searchMap : List FilterMatch
deriving DecidableEq, Repr

/-- The state the actor loop of `run` starts from. -/
def initSess : Sess :=
  ⟨none, [], none, false, false, 0, HolderSt.NotInited, "", false, 0, []⟩

/-- Modelled from the spec: `SearchMap::map_as_str` (processor/src/map.rs is
not in the excerpt) — a compact (line index, filter indices) serialization;
its exact format is irrelevant to the claims below. -/
def mapAsStr (ms : List FilterMatch) : String :=
  String.intercalate ";" (ms.map fun m =>
    Nat.repr m.index ++ ":" ++ String.intercalate "," (m.filters.map Nat.repr))

/-- The argument of `SetSessionFile`: an existing file (with its current
on-disk content) or a fresh `<streams>/<uuid>.session` path (the uuid is
external input; the created file is empty). -/
inductive SessionFileArg where
  | Existed (path : String) (content : List Char)
  | ToBeCreated (freshPath : String)
deriving DecidableEq, Repr

/-- `SessionState::handle_set_session_file`: a no-op once the content
grabber exists; otherwise adopt (or create) the file and open a lazy
grabber over it (lazy: no metadata yet, so its entry count reads as 0). -/
def handle_set_session_file (s : Sess) (arg : SessionFileArg) :
    Sess × Except NErr Unit :=
  if s.grabberOn then (s, .ok ())
  else
    match arg with
    | .Existed p c =>
      ({ s with session_file := some p, fileContent := c,
                grabberOn := true, grabberCount := 0 }, .ok ())
    | .ToBeCreated p =>
      ({ s with session_file := some p, fileContent := [],
                grabberOn := true, grabberCount := 0 }, .ok ())

/-- `SessionState::handle_update_session`: rescan the content grabber; if
the entry count changed, emit `StreamUpdated`, run the search holder when
available (appending to the result file, rescanning the search grabber,
appending to the search map, emitting `SearchUpdated` and
`SearchMapUpdated`; search errors are only logged) and reply `true`; if the
count is unchanged reply `false` with no events. -/
def handle_update_session (sem : RegexSem) (s : Sess) :
    Sess × List Event × Except NErr Bool :=
  if s.grabberOn then
    let prev := s.grabberCount
    let current := linesCount s.fileContent
    let s1 := { s with grabberCount := current }
    if prev = current then (s1, [], .ok false)
    else
      match s1.holderSt with
      | HolderSt.Available h =>
        match execute_search sem h s1.fileContent s1.outContent with
        | .ok o =>
          let found := linesCount o.outContent.toList
          ({ s1 with holderSt := HolderSt.Available o.holder,
                     outContent := o.outContent,
                     searchGrabberOn := true, searchGrabberCount := found,
                     searchMap := s1.searchMap ++ o.found },
           [Event.StreamUpdated current, Event.SearchUpdated found,
            Event.SearchMapUpdated (some (mapAsStr o.found))],
           .ok true)
        | .error _ => (s1, [Event.StreamUpdated current], .ok true)
      | _ => (s1, [Event.StreamUpdated current], .ok true)
  else (s, [], .error NErr.grabberNotInited)

/-- `SessionState::handle_write_session_file`: error when neither writer nor
session file exists; lazily create the writer (`File::create` truncates the
on-disk file); append the message to the writer's buffer; when the 250 ms
debounce has elapsed (`debounce = true`) flush and run the update-session
work, otherwise mark `session_has_updates` and reply `false`. -/
def handle_write_session_file (sem : RegexSem) (s : Sess) (msg : List Char)
    (debounce : Bool) : Sess × List Event × Except NErr Bool :=
  if s.writerBuf = none ∧ s.session_file = none then
    (s, [], .error NErr.notAssigned)
  else
    let s1 :=
      match s.writerBuf, s.session_file with
      | none, some _ => { s with writerBuf := some [], fileContent := [] }
      | _, _ => s
    match s1.writerBuf with
    | some buf =>
      let s2 := { s1 with writerBuf := some (buf ++ msg) }
      if debounce then
        let s3 := { s2 with fileContent := s2.fileContent ++ (buf ++ msg),
                            writerBuf := some [] }
        handle_update_session sem s3
      else ({ s2 with session_has_updates := true }, [], .ok false)
    | none => (s1, [], .ok false)

/-- `SessionState::handle_flush_session_file`: error when neither writer nor
session file exists; a no-op unless `session_has_updates`; otherwise flush
the buffer to the file, clear the flag, and run the update-session work
(propagating its error). -/
def handle_flush_session_file (sem : RegexSem) (s : Sess) :
    Sess × List Event × Except NErr Unit :=
  if s.writerBuf = none ∧ s.session_file = none then
    (s, [], .error NErr.notAssigned)
  else if !s.session_has_updates then (s, [], .ok ())
  else
    match s.writerBuf with
    | some buf =>
      let s1 := { s with fileContent := s.fileContent ++ buf,
                         writerBuf := some ([] : List Char),
                         session_has_updates := false }
      let r := handle_update_session sem s1
      (r.1, r.2.1, r.2.2.map fun _ => ())
    | none => (s, [], .ok ())

/-- `SessionState::handle_get_search_holder`: `Available` hands the stored
holder out and moves to `InUse`; `InUse` is a holder-busy error;
`NotInited` creates a fresh holder with no filters over the session file
(error when no session file is assigned). -/
def handle_get_search_holder (s : Sess) : Sess × Except NErr SearchHolder :=
  match s.holderSt with
  | HolderSt.Available h => ({ s with holderSt := HolderSt.InUse }, .ok h)
  | HolderSt.InUse => (s, .error NErr.holderBusy)
  | HolderSt.NotInited =>
    match s.session_file with
    | some f => ({ s with holderSt := HolderSt.InUse }, .ok (SearchHolder.new f []))
    | none => (s, .error NErr.noSessionFileForHolder)

/-- The `Api::SetSearchHolder` arm of `run`: only legal in `InUse`; a
supplied holder moves to `Available`, none moves to `NotInited`. -/
def handle_set_search_holder (s : Sess) (h? : Option SearchHolder) :
    Sess × Except NErr Unit :=
  match s.holderSt with
  | HolderSt.InUse =>
    match h? with
    | some h => ({ s with holderSt := HolderSt.Available h }, .ok ())
    | none => ({ s with holderSt := HolderSt.NotInited }, .ok ())
  | _ => (s, .error NErr.holderNotInUse)

/-- Apply a sequence of `WriteSessionFile` commands (message and whether the
debounce had elapsed), keeping only the state. -/
def applyWrites (sem : RegexSem) : Sess → List (List Char × Bool) → Sess
  | s, [] => s
  | s, (msg, db) :: rest =>
    applyWrites sem (handle_write_session_file sem s msg db).1 rest

/-- A grabbed element: the line's content and, once tagged by GrabSearch,
its session position and output row. -/
structure GrabbedElement where
  content : String
  pos : Option Nat
  row : Option Nat
deriving DecidableEq, Repr

/-- The run-compaction loop of `handle_grab_search` after its first
iteration: walk the remaining parsed numbers with the current `from_pos`,
`to_pos` and accumulated ranges; a number that is not `to_pos + 1` pushes
the pending run and starts a new one. -/
def grabRangesTail : List Nat → Nat → Nat → List (Nat × Nat) →
    List (Nat × Nat) × Nat × Nat
  | [], from_pos, to_pos, ranges => (ranges, from_pos, to_pos)
  | p :: rest, from_pos, to_pos, ranges =>
    if to_pos + 1 ≠ p then grabRangesTail rest p p (ranges ++ [(from_pos, to_pos)])
    else grabRangesTail rest from_pos p ranges

/-- The ranges `handle_grab_search` compacts the parsed line numbers into:
the loop above followed by the source's final push, which fires when no
range was pushed yet (and the input is non-empty) or when the last pushed
range starts elsewhere than the pending `from_pos`. -/
def computeRanges : List Nat → List (Nat × Nat)
  | [] => []
  | p :: rest =>
    let r := grabRangesTail rest p p []
    match r.1.getLast? with
    | none => [(r.2.1, r.2.2)]
    | some last =>
      if last.1 ≠ r.2.1 then r.1 ++ [(r.2.1, r.2.2)] else r.1

/-- Modelled from the spec's words (for comparison with `computeRanges`):
coalesce the numbers into maximal contiguous inclusive runs, a run breaking
exactly when the next number is not the previous plus one. -/
def specRunsAux (lo prev : Nat) : List Nat → List (Nat × Nat)
  | [] => [(lo, prev)]
  | p :: rest =>
    if p = prev + 1 then specRunsAux lo p rest
    else (lo, prev) :: specRunsAux p p rest

/-- Modelled from the spec's words: the maximal contiguous runs of a number
sequence. -/
def specRuns : List Nat → List (Nat × Nat)
  | [] => []
  | p :: rest => specRunsAux p p rest

/-- Modelled from the spec: the content grabber's `grab_content` over an
inclusive line range (the Grabber is not in the excerpt) — the contiguous
lines `lo..=hi` of the session, untagged. -/
def grab_content (lines : List String) (lo hi : Nat) : List GrabbedElement :=
  ((lines.drop lo).take (hi + 1 - lo)).map fun c => ⟨c, none, none⟩

/-- The tagging loop of `handle_grab_search` over one run's elements:
element `j` of a run starting at `lo` receives `pos = lo + j` and
`row = row0 + j` (the source keeps a running row counter). -/
def tagElems (lo row : Nat) : List GrabbedElement → List GrabbedElement
  | [] => []
  | e :: es => { e with pos := some lo, row := some row } :: tagElems (lo + 1) (row + 1) es

/-- The per-run loop of `handle_grab_search`: grab each run's content from
the content grabber, tag it, and append, advancing the row counter by the
number of elements emitted. -/
def tagRuns (lines : List String) (row : Nat) : List (Nat × Nat) → List GrabbedElement
  | [] => []
  | (lo, hi) :: rest =>
    let els := tagElems lo row (grab_content lines lo hi)
    els ++ tagRuns lines (row + els.length) rest

/-- `SessionState::handle_grab_search`: the parsed line numbers of the
requested slice of the search-result file are compacted into ranges, each
range is grabbed from the content grabber, and elements are tagged with
`pos` and `row`, the row counter starting at the requested range's start. -/
def handle_grab_search (lines : List String) (rangeStart : Nat)
    (nums : List Nat) : List GrabbedElement :=
  tagRuns lines rangeStart (computeRanges nums)

/-- Consecutive numbers `lo, lo+1, ...` of a given length. -/
def ivFrom (lo : Nat) : Nat → List Nat
  | 0 => []
  | n + 1 => lo :: ivFrom (lo + 1) n

/-- The numbers of the inclusive range `lo..=hi`. -/
def iv (lo hi : Nat) : List Nat := ivFrom lo (hi + 1 - lo)

/-- Flatten a list of inclusive runs into the numbers they cover. -/
def ivJoin (runs : List (Nat × Nat)) : List Nat :=
  (runs.map fun r => iv r.1 r.2).flatten

/-- A matcher denotation that rejects everything (no filter matches). -/
def semF : RegexSem := fun _ _ => false

/-- A session that adopted an existing three-line session file. -/
def c5run0 : Sess :=
  (handle_set_session_file initSess (SessionFileArg.Existed "p" ("a\nb\nc".toList))).1

/-- ... after one UpdateSession (the grabber now counts three lines). -/
def c5run1 : Sess := (handle_update_session semF c5run0).1

/-- ... after a first WriteSessionFile (no debounce): the lazy writer
creation truncated the on-disk file; the written byte sits in the buffer. -/
def c5run2 : Sess := (handle_write_session_file semF c5run1 ("x".toList) false).1

/-- A session in `NotInited` holder state with a session file assigned. -/
def sessNotInited : Sess :=
  { initSess with session_file := some "p", grabberOn := true }

/-- A session holding an `Available` search holder. -/
def sessAvail : Sess :=
  { sessNotInited with holderSt := HolderSt.Available (SearchHolder.new "p" s1Filters) }

/-- A session whose search holder is checked out (`InUse`). -/
def sessInUse : Sess := { sessNotInited with holderSt := HolderSt.InUse }

/-- Thirteen distinct content lines for the S6 GrabSearch run. -/
def s6Lines : List String := (List.range 13).map fun i => "line" ++ Nat.repr i

/-- The S6 parsed search-result numbers. -/
def s6Nums : List Nat := [3, 4, 5, 9, 10, 12]

/-- The default matcher used when indexing past the matcher list. -/
def dflMatcher : List Char → Bool := fun _ => false

/-- The numbered lines of a region that the combined matcher accepts. -/
def matchedOf (ms : List (List Char → Bool)) (lnum : Nat)
    (lns : List (List Char)) : List (Nat × List Char) :=
  (numbered lnum lns).filter fun p => ms.any fun m => m p.2

/-- The write-path invariant: the writer exists, the on-disk content plus the
buffered bytes equal the accumulated writes, the session file stays
assigned, and a clear `session_has_updates` flag implies an empty buffer. -/
def WriteInv (p : String) (acc : List Char) (s : Sess) : Prop :=
  ∃ buf, s.writerBuf = some buf ∧ s.fileContent ++ buf = acc ∧
    s.session_file = some p ∧ (s.session_has_updates = false → buf = [])

/-! ### Helper lemmas: the search core -/

theorem matchIndicesFrom_mem (line : List Char) :
    ∀ (ms : List (List Char → Bool)) (k i : Nat),
      i ∈ matchIndicesFrom k ms line ↔
        ∃ j, j < ms.length ∧ i = k + j ∧ (ms.getD j dflMatcher) line = true := by
  intro ms
  induction ms with
  | nil => intro k i; simp [matchIndicesFrom]
  | cons m ms ih =>
    intro k i
    constructor
    · intro hmem
      rw [matchIndicesFrom] at hmem
      by_cases hm : m line = true
      · rw [if_pos hm] at hmem
        rcases List.mem_cons.1 hmem with rfl | hmem
        · exact ⟨0, Nat.succ_pos _, by omega, by rw [List.getD_cons_zero]; exact hm⟩
        · obtain ⟨j, hj, hi, hget⟩ := (ih (k + 1) i).1 hmem
          exact ⟨j + 1, Nat.succ_lt_succ hj, by omega, by rw [List.getD_cons_succ]; exact hget⟩
      · rw [if_neg hm] at hmem
        obtain ⟨j, hj, hi, hget⟩ := (ih (k + 1) i).1 hmem
        exact ⟨j + 1, Nat.succ_lt_succ hj, by omega, by rw [List.getD_cons_succ]; exact hget⟩
    · rintro ⟨j, hj, rfl, hget⟩
      rw [matchIndicesFrom]
      by_cases hm : m line = true
      · rw [if_pos hm]
        cases j with
        | zero => simp
        | succ j =>
          apply List.mem_cons_of_mem
          refine (ih (k + 1) (k + (j + 1))).2 ⟨j, Nat.lt_of_succ_lt_succ hj, by omega, ?_⟩
          rw [List.getD_cons_succ] at hget; exact hget
      · rw [if_neg hm]
        cases j with
        | zero => rw [List.getD_cons_zero] at hget; exact absurd hget hm
        | succ j =>
          refine (ih (k + 1) (k + (j + 1))).2 ⟨j, Nat.lt_of_succ_lt_succ hj, by omega, ?_⟩
          rw [List.getD_cons_succ] at hget; exact hget

theorem matchIndices_iff (ms : List (List Char → Bool)) (line : List Char) (i : Nat) :
    i ∈ matchIndices ms line ↔
      i < ms.length ∧ (ms.getD i dflMatcher) line = true := by
  rw [matchIndices, matchIndicesFrom_mem]
  constructor
  · rintro ⟨j, hj, rfl, hget⟩
    constructor
    · omega
    · have hz : (0 : Nat) + j = j := by omega
      rw [hz]; exact hget
  · rintro ⟨hi, hget⟩
    exact ⟨i, hi, by omega, hget⟩

theorem searchLines_matches (ms : List (List Char → Bool)) (lr : Nat) :
    ∀ (lnum : Nat) (lns : List (List Char)),
      (searchLines ms lr lnum lns).1 =
        (matchedOf ms lnum lns).map fun p =>
          FilterMatch.mk (p.1 + lr - 1) (matchIndices ms p.2) := by
  intro lnum lns
  induction lns generalizing lnum with
  | nil => simp [searchLines, matchedOf, numbered]
  | cons l rest ih =>
    by_cases hm : (ms.any fun m => m l) = true
    · simp [searchLines, matchedOf, numbered, List.filter_cons, hm, ih (lnum + 1)]
    · simp [searchLines, matchedOf, numbered, List.filter_cons, hm, ih (lnum + 1)]

theorem searchLines_stats (ms : List (List Char → Bool)) (lr : Nat) :
    ∀ (lnum : Nat) (lns : List (List Char)) (i : Nat),
      (searchLines ms lr lnum lns).2.1 i =
        ((matchedOf ms lnum lns).filter fun p => i ∈ matchIndices ms p.2).length := by
  intro lnum lns
  induction lns generalizing lnum with
  | nil => intro i; simp [searchLines, matchedOf, numbered, noStats]
  | cons l rest ih =>
    intro i
    by_cases hm : (ms.any fun m => m l) = true
    · by_cases hmem : i ∈ matchIndices ms l
      · simp [searchLines, matchedOf, numbered, List.filter_cons, hm, bump, hmem,
          ih (lnum + 1) i, Nat.add_comm]
      · simp [searchLines, matchedOf, numbered, List.filter_cons, hm, bump, hmem,
          ih (lnum + 1) i]
    · simp [searchLines, matchedOf, numbered, List.filter_cons, hm, ih (lnum + 1) i]

theorem searchLines_out (ms : List (List Char → Bool)) (lr : Nat) :
    ∀ (lnum : Nat) (lns : List (List Char)),
      (searchLines ms lr lnum lns).2.2 =
        strConcat ((matchedOf ms lnum lns).map fun p => Nat.repr (p.1 + lr - 1) ++ "\n") := by
  intro lnum lns
  induction lns generalizing lnum with
  | nil => simp [searchLines, matchedOf, numbered, strConcat]
  | cons l rest ih =>
    by_cases hm : (ms.any fun m => m l) = true
    · simp [searchLines, matchedOf, numbered, List.filter_cons, hm, strConcat,
        ih (lnum + 1), String.append_assoc]
    · simp [searchLines, matchedOf, numbered, List.filter_cons, hm, ih (lnum + 1)]

/-- The full characterization of a successful `execute_search` run. -/
theorem execute_search_spec (sem : RegexSem) (h : SearchHolder)
    (content : List Char) (outContent : String)
    (hne : ¬ h.search_filters = []) :
    ∃ o, execute_search sem h content outContent = .ok o ∧
      o.holder = { h with
        bytes_read := Nat.max (h.bytes_read + 1) content.length,
        lines_read := h.lines_read + (linesOf (content.drop (h.bytes_read + 1))).length } ∧
      o.found = (matchedOf (h.search_filters.map fun f => sem (filter_as_regex f)) 1
          (linesOf (content.drop (h.bytes_read + 1)))).map (fun p =>
        FilterMatch.mk (p.1 + h.lines_read - 1)
          (matchIndices (h.search_filters.map fun f => sem (filter_as_regex f)) p.2)) ∧
      (∀ i, o.stats i =
        ((matchedOf (h.search_filters.map fun f => sem (filter_as_regex f)) 1
            (linesOf (content.drop (h.bytes_read + 1)))).filter fun p =>
          i ∈ matchIndices (h.search_filters.map fun f => sem (filter_as_regex f)) p.2).length) ∧
      o.outContent = outContent ++
        strConcat ((matchedOf (h.search_filters.map fun f => sem (filter_as_regex f)) 1
            (linesOf (content.drop (h.bytes_read + 1)))).map fun p =>
          Nat.repr (p.1 + h.lines_read - 1) ++ "\n") := by
  have hrun : execute_search sem h content outContent =
      .ok ⟨{ h with
              bytes_read := Nat.max (h.bytes_read + 1) content.length,
              lines_read := h.lines_read +
                (linesOf (content.drop (h.bytes_read + 1))).length },
            (searchLines (h.search_filters.map fun f => sem (filter_as_regex f))
              h.lines_read 1 (linesOf (content.drop (h.bytes_read + 1)))).1,
            (searchLines (h.search_filters.map fun f => sem (filter_as_regex f))
              h.lines_read 1 (linesOf (content.drop (h.bytes_read + 1)))).2.1,
            outContent ++
              (searchLines (h.search_filters.map fun f => sem (filter_as_regex f))
                h.lines_read 1 (linesOf (content.drop (h.bytes_read + 1)))).2.2⟩ := by
    simp only [execute_search]
    rw [if_neg hne]
  exact ⟨_, hrun, rfl, searchLines_matches .., fun i => searchLines_stats ..,
    congrArg (fun s => outContent ++ s) (searchLines_out ..)⟩

theorem numbered_mem_fst {α : Type} :
    ∀ (l : List α) (k : Nat), ∀ p ∈ numbered k l, k ≤ p.1 := by
  intro l
  induction l with
  | nil => intro k p hp; simp [numbered] at hp
  | cons a as ih =>
    intro k p hp
    simp only [numbered, List.mem_cons] at hp
    rcases hp with rfl | hp
    · exact Nat.le_refl k
    · exact Nat.le_trans (Nat.le_succ k) (ih (k + 1) p hp)

theorem matchedOf_mem_fst (ms : List (List Char → Bool)) (lnum : Nat)
    (lns : List (List Char)) : ∀ p ∈ matchedOf ms lnum lns, lnum ≤ p.1 := by
  intro p hp
  exact numbered_mem_fst lns lnum p (List.mem_of_mem_filter hp)

/-! ### The claims -/

/-- C2: `filter_as_regex` produces
ignore_case_on ++ word_boundary ++ subject ++ word_boundary ++ ignore_case_off,
where subject is the raw value when `is_regex` and otherwise the value with
each character of the escape set backslash-prefixed; concretely on value
"a.b": regex gives a.b, non-regex gives a\.b, adding is_word gives
\ba\.b\b, and adding ignore_case gives (?i)\ba\.b\b(?-i). -/
theorem c2_filter_as_regex_shape :
    (∀ f : SearchFilter,
      filter_as_regex f =
        (if f.ignore_case then "(?i)" else "") ++
        (if f.is_word then "\\b" else "") ++
        (if f.is_regex then f.value else escape f.value) ++
        (if f.is_word then "\\b" else "") ++
        (if f.ignore_case then "(?-i)" else "")) ∧
    (∀ value : String,
      escape value = strConcat (value.toList.map fun c =>
        if c ∈ escapedChars then String.mk ['\\', c] else String.mk [c])) ∧
    escapedChars = ['\x7b', '\x7d', '[', ']', '+', '$', '^', '/', '!', '.',
                    '*', '|', '(', ')', ':', '?', ',', '=', '<', '>', '\\'] ∧
    filter_as_regex ⟨"a.b", true, false, false⟩ = "a.b" ∧
    filter_as_regex ⟨"a.b", false, false, false⟩ = "a\\.b" ∧
    filter_as_regex ⟨"a.b", false, false, true⟩ = "\\ba\\.b\\b" ∧
    filter_as_regex ⟨"a.b", false, true, true⟩ = "(?i)\\ba\\.b\\b(?-i)" :=
  ⟨fun _ => rfl, fun _ => rfl, rfl, rfl, rfl, rfl, rfl⟩

/-- C1: every `execute_search` run with a non-empty filter list succeeds and
yields, per line accepted by the combined matcher, exactly one FilterMatch
whose index is (local 1-based line number - 1) + lines_read before the run
and whose filter set holds the index of every per-filter matcher matching
the line; the per-filter statistics count one hit per matched line per
filter, and the absolute index plus newline is appended to the result file;
in particular the six-line S1 corpus with the two S1 filters produces
result-file content "1\n3\n" and statistics filter 0 ↦ 1, filter 1 ↦ 1. -/
theorem c1_execute_search_batch :
    (∀ (sem : RegexSem) (h : SearchHolder) (content : List Char) (out : String),
      h.search_filters ≠ [] →
      ∃ o, execute_search sem h content out = .ok o ∧
        o.found = (matchedOf (h.search_filters.map fun f => sem (filter_as_regex f)) 1
            (linesOf (content.drop (h.bytes_read + 1)))).map (fun p =>
          FilterMatch.mk ((p.1 - 1) + h.lines_read)
            (matchIndices (h.search_filters.map fun f => sem (filter_as_regex f)) p.2)) ∧
        (∀ line i,
          i ∈ matchIndices (h.search_filters.map fun f => sem (filter_as_regex f)) line ↔
            i < (h.search_filters.map fun f => sem (filter_as_regex f)).length ∧
            ((h.search_filters.map fun f => sem (filter_as_regex f)).getD i dflMatcher)
              line = true) ∧
        (∀ i, o.stats i =
          ((matchedOf (h.search_filters.map fun f => sem (filter_as_regex f)) 1
              (linesOf (content.drop (h.bytes_read + 1)))).filter fun p =>
            i ∈ matchIndices (h.search_filters.map fun f => sem (filter_as_regex f)) p.2).length) ∧
        o.outContent = out ++
          strConcat ((matchedOf (h.search_filters.map fun f => sem (filter_as_regex f)) 1
              (linesOf (content.drop (h.bytes_read + 1)))).map fun p =>
            Nat.repr ((p.1 - 1) + h.lines_read) ++ "\n")) ∧
    (∃ o, execute_search s1Sem s1Holder s1Content "" = .ok o ∧
      o.found = [⟨1, [1]⟩, ⟨3, [0]⟩] ∧ o.outContent = "1\n3\n" ∧
      o.stats 0 = 1 ∧ o.stats 1 = 1) := by
  constructor
  · intro sem h content out hne
    obtain ⟨o, hrun, _, hfound, hstats, hout⟩ :=
      execute_search_spec sem h content out hne
    refine ⟨o, hrun, ?_, fun line i => matchIndices_iff .., hstats, ?_⟩
    · rw [hfound]
      refine List.map_congr_left fun p hp => ?_
      have h1 := matchedOf_mem_fst _ _ _ p hp
      have : p.1 + h.lines_read - 1 = (p.1 - 1) + h.lines_read := by omega
      rw [this]
    · rw [hout]
      refine congrArg (fun l => out ++ strConcat l) (List.map_congr_left fun p hp => ?_)
      have h1 := matchedOf_mem_fst _ _ _ p hp
      have h2 : p.1 + h.lines_read - 1 = (p.1 - 1) + h.lines_read := by omega
      rw [h2]
  · exact ⟨_, rfl, rfl, rfl, rfl, rfl⟩

/-- Witness for C1: the general part applied to the concrete S1 run. -/
theorem c1_execute_search_batch_witness :
    ∃ o, execute_search s1Sem s1Holder s1Content "" = .ok o ∧
      o.found = (matchedOf (s1Holder.search_filters.map fun f => s1Sem (filter_as_regex f)) 1
          (linesOf (s1Content.drop (s1Holder.bytes_read + 1)))).map (fun p =>
        FilterMatch.mk ((p.1 - 1) + s1Holder.lines_read)
          (matchIndices (s1Holder.search_filters.map fun f => s1Sem (filter_as_regex f)) p.2)) ∧
      (∀ line i,
        i ∈ matchIndices (s1Holder.search_filters.map fun f => s1Sem (filter_as_regex f)) line ↔
          i < (s1Holder.search_filters.map fun f => s1Sem (filter_as_regex f)).length ∧
          ((s1Holder.search_filters.map fun f => s1Sem (filter_as_regex f)).getD i dflMatcher)
            line = true) ∧
      (∀ i, o.stats i =
        ((matchedOf (s1Holder.search_filters.map fun f => s1Sem (filter_as_regex f)) 1
            (linesOf (s1Content.drop (s1Holder.bytes_read + 1)))).filter fun p =>
          i ∈ matchIndices (s1Holder.search_filters.map fun f => s1Sem (filter_as_regex f)) p.2).length) ∧
      o.outContent = "" ++
        strConcat ((matchedOf (s1Holder.search_filters.map fun f => s1Sem (filter_as_regex f)) 1
            (linesOf (s1Content.drop (s1Holder.bytes_read + 1)))).map fun p =>
          Nat.repr ((p.1 - 1) + s1Holder.lines_read) ++ "\n") :=
  c1_execute_search_batch.1 s1Sem s1Holder s1Content "" (by decide)

theorem holderAfter_mono (sem : RegexSem) (h : SearchHolder)
    (content : List Char) (out : String) :
    h.bytes_read ≤ (holderAfter sem h content out).bytes_read ∧
    h.lines_read ≤ (holderAfter sem h content out).lines_read := by
  by_cases hne : h.search_filters = []
  · simp [holderAfter, execute_search, hne]
  · obtain ⟨o, hrun, hh, _, _, _⟩ := execute_search_spec sem h content out hne
    simp only [holderAfter, hrun]
    rw [hh]
    constructor
    · exact Nat.le_trans (Nat.le_succ _) (Nat.le_max_left _ _)
    · exact Nat.le_add_right _ _

/-- C7: across any sequence of `execute_search` runs on the same holder
(no DropSearch), `bytes_read` and `lines_read` never decrease: each run
leaves both at least as large as before, and so does any run sequence. -/
theorem c7_cursor_monotone :
    (∀ (sem : RegexSem) (h : SearchHolder) (content : List Char) (out : String),
      h.bytes_read ≤ (holderAfter sem h content out).bytes_read ∧
      h.lines_read ≤ (holderAfter sem h content out).lines_read) ∧
    (∀ (sem : RegexSem) (cs : List (List Char)) (h : SearchHolder),
      h.bytes_read ≤ (runSearchSeq sem h cs).bytes_read ∧
      h.lines_read ≤ (runSearchSeq sem h cs).lines_read) := by
  refine ⟨holderAfter_mono, fun sem cs => ?_⟩
  induction cs with
  | nil => intro h; exact ⟨Nat.le_refl _, Nat.le_refl _⟩
  | cons c cs ih =>
    intro h
    have h1 := holderAfter_mono sem h c ""
    have h2 := ih (holderAfter sem h c "")
    exact ⟨Nat.le_trans h1.1 h2.1, Nat.le_trans h1.2 h2.2⟩

/-- C9: on every run — already on the first run of a fresh holder, whose
`bytes_read` is 0 — the reader is positioned at byte `bytes_read + 1`, so
byte 0 of the session file is never scanned: over the file "X\nX" with a
filter for the literal X, both lines match the compiled pattern but only
line index 1 is reported (result file "1\n"); over "AB\nB" with a filter
for AB the first line loses its first byte and nothing is reported at all,
although the engine accepts the full first line in both cases. -/
theorem c9_first_byte_skipped :
    (SearchHolder.new "s" [⟨"X", false, false, false⟩]).bytes_read = 0 ∧
    ("X\nX".toList).drop (0 + 1) = "\nX".toList ∧
    (∃ o, execute_search litSem (SearchHolder.new "s" [⟨"X", false, false, false⟩])
        ("X\nX".toList) "" = .ok o ∧ o.found = [⟨1, [0]⟩] ∧ o.outContent = "1\n") ∧
    litSem (filter_as_regex ⟨"X", false, false, false⟩) ("X".toList) = true ∧
    (∃ o, execute_search litSem (SearchHolder.new "s" [⟨"AB", false, false, false⟩])
        ("AB\nB".toList) "" = .ok o ∧ o.found = []) ∧
    litSem (filter_as_regex ⟨"AB", false, false, false⟩) ("AB".toList) = true :=
  ⟨rfl, rfl, ⟨_, rfl, rfl, rfl⟩, rfl, ⟨_, rfl, rfl⟩, rfl⟩

theorem linesKeep_flatten : ∀ s : List Char, (linesKeep s).flatten = s := by
  intro s
  induction s with
  | nil => rfl
  | cons c rest ih =>
    by_cases hc : c = '\n'
    · subst hc
      simp [linesKeep, ih]
    · simp only [linesKeep, if_neg hc]
      cases hk : linesKeep rest with
      | nil =>
        rw [hk] at ih
        simp only [List.flatten_nil] at ih
        simp [← ih]
      | cons l ls =>
        rw [hk] at ih
        simp only [List.flatten_cons] at ih ⊢
        rw [List.cons_append, ih]

theorem searchLinesC_none_matches (ms : List (List Char → Bool)) (lr : Nat) :
    ∀ (lnum : Nat) (ls : List (List Char)),
      (searchLinesC ms lr none lnum ls).1 =
        (searchLines ms lr lnum (ls.map stripNl)).1 := by
  intro lnum ls
  induction ls generalizing lnum with
  | nil => rfl
  | cons l rest ih =>
    by_cases hm : (ms.any fun m => m (stripNl l)) = true
    · simp [searchLinesC, searchLines, hm, ih (lnum + 1)]
    · simp [searchLinesC, searchLines, hm, ih (lnum + 1)]

theorem searchLinesC_none_consumed (ms : List (List Char → Bool)) (lr : Nat) :
    ∀ (lnum : Nat) (ls : List (List Char)),
      (searchLinesC ms lr none lnum ls).2.2.2 = ls.flatten.length := by
  intro lnum ls
  induction ls generalizing lnum with
  | nil => rfl
  | cons l rest ih =>
    by_cases hm : (ms.any fun m => m (stripNl l)) = true
    · simp [searchLinesC, hm, ih (lnum + 1)]
    · simp [searchLinesC, hm, ih (lnum + 1)]

theorem searchLinesC_take (ms : List (List Char → Bool)) (lr : Nat) :
    ∀ (ls : List (List Char)) (n lnum : Nat),
      (searchLinesC ms lr (some n) lnum ls).1 =
        (searchLinesC ms lr none lnum ls).1.take n ∧
      (searchLinesC ms lr (some n) lnum ls).2.2.2 ≤
        (searchLinesC ms lr none lnum ls).2.2.2 := by
  intro ls
  induction ls with
  | nil => intro n lnum; exact ⟨by simp [searchLinesC], Nat.le_refl _⟩
  | cons l rest ih =>
    intro n lnum
    by_cases hm : (ms.any fun m => m (stripNl l)) = true
    · cases n with
      | zero =>
        constructor
        · simp [searchLinesC, hm]
        · simp [searchLinesC, hm]
      | succ n =>
        have h1 := ih n (lnum + 1)
        constructor
        · simp [searchLinesC, hm, h1.1]
        · have h2 := h1.2
          simp only [searchLinesC, hm, if_pos]
          simpa using Nat.add_le_add_left h2 l.length
    · have h1 := ih n (lnum + 1)
      constructor
      · simp [searchLinesC, hm, h1.1]
      · have h2 := h1.2
        simp only [searchLinesC, hm, if_neg]
        simpa using Nat.add_le_add_left h2 l.length

/-- C6: if the cancellation token fires mid-scan, the search returns success
with the partial batch: the match vector is a prefix of the non-cancelled
run's vector, and `bytes_read` advances at most as far as the non-cancelled
run (only over fully consumed lines). -/
theorem c6_cancellation_partial :
    ∀ (sem : RegexSem) (fuel : Nat) (h : SearchHolder) (content : List Char)
      (out : String),
      h.search_filters ≠ [] →
      ∃ oc of,
        execute_search_cancellable sem (some fuel) h content out = .ok oc ∧
        execute_search sem h content out = .ok of ∧
        (∃ t, of.found = oc.found ++ t) ∧
        oc.holder.bytes_read ≤ of.holder.bytes_read := by
  intro sem fuel h content out hne
  have hrunC : execute_search_cancellable sem (some fuel) h content out =
      .ok ⟨{ h with
              bytes_read := h.bytes_read + 1 +
                (searchLinesC (h.search_filters.map fun f => sem (filter_as_regex f))
                  h.lines_read (some fuel) 1
                  (linesKeep (content.drop (h.bytes_read + 1)))).2.2.2,
              lines_read := h.lines_read +
                (linesOf (content.drop (h.bytes_read + 1))).length },
            (searchLinesC (h.search_filters.map fun f => sem (filter_as_regex f))
              h.lines_read (some fuel) 1
              (linesKeep (content.drop (h.bytes_read + 1)))).1,
            (searchLinesC (h.search_filters.map fun f => sem (filter_as_regex f))
              h.lines_read (some fuel) 1
              (linesKeep (content.drop (h.bytes_read + 1)))).2.1,
            out ++ (searchLinesC (h.search_filters.map fun f => sem (filter_as_regex f))
              h.lines_read (some fuel) 1
              (linesKeep (content.drop (h.bytes_read + 1)))).2.2.1⟩ := by
    simp only [execute_search_cancellable]
    rw [if_neg hne]
  obtain ⟨of, hrun, hh, hfound, _, _⟩ := execute_search_spec sem h content out hne
  refine ⟨_, of, hrunC, hrun, ?_, ?_⟩
  · refine ⟨(searchLinesC (h.search_filters.map fun f => sem (filter_as_regex f))
        h.lines_read none 1 (linesKeep (content.drop (h.bytes_read + 1)))).1.drop fuel, ?_⟩
    have hpre := (searchLinesC_take (h.search_filters.map fun f => sem (filter_as_regex f))
      h.lines_read (linesKeep (content.drop (h.bytes_read + 1))) fuel 1).1
    have hbr := searchLinesC_none_matches (h.search_filters.map fun f => sem (filter_as_regex f))
      h.lines_read 1 (linesKeep (content.drop (h.bytes_read + 1)))
    have hfound2 : of.found =
        (searchLinesC (h.search_filters.map fun f => sem (filter_as_regex f))
          h.lines_read none 1 (linesKeep (content.drop (h.bytes_read + 1)))).1 := by
      rw [hbr, hfound]
      exact (searchLines_matches ..).symm
    rw [hfound2]
    show _ = (searchLinesC _ _ (some fuel) 1 _).1 ++ _
    rw [hpre]
    exact (List.take_append_drop ..).symm
  · have hle := (searchLinesC_take (h.search_filters.map fun f => sem (filter_as_regex f))
      h.lines_read (linesKeep (content.drop (h.bytes_read + 1))) fuel 1).2
    have hcons := searchLinesC_none_consumed (h.search_filters.map fun f => sem (filter_as_regex f))
      h.lines_read 1 (linesKeep (content.drop (h.bytes_read + 1)))
    have hflat := linesKeep_flatten (content.drop (h.bytes_read + 1))
    have hlen : (content.drop (h.bytes_read + 1)).length =
        content.length - (h.bytes_read + 1) := List.length_drop ..
    rw [hh]
    show h.bytes_read + 1 + _ ≤ Nat.max (h.bytes_read + 1) content.length
    have hfl : ((linesKeep (content.drop (h.bytes_read + 1))).flatten).length =
        content.length - (h.bytes_read + 1) := by rw [hflat, hlen]
    rw [hfl] at hcons
    rcases Nat.le_total (h.bytes_read + 1) content.length with hLE | hLE
    · have hmax : Nat.max (h.bytes_read + 1) content.length = content.length :=
        Nat.max_eq_right hLE
      rw [hmax]
      omega
    · have hmax : Nat.max (h.bytes_read + 1) content.length = h.bytes_read + 1 :=
        Nat.max_eq_left hLE
      rw [hmax]
      omega

/-- Witness for C6: the cancelled S1 run with one allowed match callback. -/
theorem c6_cancellation_partial_witness :
    ∃ oc of,
      execute_search_cancellable s1Sem (some 1) s1Holder s1Content "" = .ok oc ∧
      execute_search s1Sem s1Holder s1Content "" = .ok of ∧
      (∃ t, of.found = oc.found ++ t) ∧
      oc.holder.bytes_read ≤ of.holder.bytes_read :=
  c6_cancellation_partial s1Sem 1 s1Holder s1Content "" (by decide)

theorem handle_update_session_frame (sem : RegexSem) (s : Sess) :
    (handle_update_session sem s).1.fileContent = s.fileContent ∧
    (handle_update_session sem s).1.writerBuf = s.writerBuf ∧
    (handle_update_session sem s).1.session_has_updates = s.session_has_updates ∧
    (handle_update_session sem s).1.session_file = s.session_file := by
  unfold handle_update_session
  by_cases hg : s.grabberOn = true
  · by_cases hc : s.grabberCount = linesCount s.fileContent
    · simp [hg, hc]
    · cases hh : s.holderSt with
      | Available h =>
        cases hrun : execute_search sem h s.fileContent s.outContent with
        | ok o => simp [hg, hc, hh, hrun]
        | error e => simp [hg, hc, hh, hrun]
      | NotInited => simp [hg, hc, hh]
      | InUse => simp [hg, hc, hh]
  · simp [hg]

theorem write_step (sem : RegexSem) (p : String) (acc : List Char) (s : Sess)
    (msg : List Char) (db : Bool) (hinv : WriteInv p acc s) :
    WriteInv p (acc ++ msg) (handle_write_session_file sem s msg db).1 := by
  obtain ⟨buf, hbuf, hacc, hfile, hclean⟩ := hinv
  obtain ⟨sf, fc, wb, shu, gon, gc, hst, oc, sgon, sgc, sm⟩ := s
  dsimp only at hbuf hacc hfile hclean
  subst hbuf
  subst hfile
  cases db with
  | false =>
    have hW : (handle_write_session_file sem
        ⟨some p, fc, some buf, shu, gon, gc, hst, oc, sgon, sgc, sm⟩ msg false).1 =
        ⟨some p, fc, some (buf ++ msg), true, gon, gc, hst, oc, sgon, sgc, sm⟩ := rfl
    rw [hW]
    refine ⟨buf ++ msg, rfl, ?_, rfl, by simp⟩
    dsimp only
    rw [← hacc, List.append_assoc]
  | true =>
    have hW : (handle_write_session_file sem
        ⟨some p, fc, some buf, shu, gon, gc, hst, oc, sgon, sgc, sm⟩ msg true).1 =
        (handle_update_session sem
          ⟨some p, fc ++ (buf ++ msg), some ([] : List Char), shu, gon, gc, hst, oc,
           sgon, sgc, sm⟩).1 := rfl
    rw [hW]
    have hframe := handle_update_session_frame sem
      ⟨some p, fc ++ (buf ++ msg), some ([] : List Char), shu, gon, gc, hst, oc, sgon, sgc, sm⟩
    refine ⟨[], hframe.2.1, ?_, ?_, fun _ => rfl⟩
    · rw [hframe.1, List.append_nil]
      dsimp only
      rw [← hacc, List.append_assoc]
    · rw [hframe.2.2.2]

theorem write_first (sem : RegexSem) (p : String) (s : Sess) (msg : List Char)
    (db : Bool) (hw : s.writerBuf = none) (hf : s.session_file = some p) :
    WriteInv p msg (handle_write_session_file sem s msg db).1 := by
  obtain ⟨sf, fc, wb, shu, gon, gc, hst, oc, sgon, sgc, sm⟩ := s
  dsimp only at hw hf
  subst hw
  subst hf
  cases db with
  | false =>
    have hW : (handle_write_session_file sem
        ⟨some p, fc, none, shu, gon, gc, hst, oc, sgon, sgc, sm⟩ msg false).1 =
        ⟨some p, [], some ([] ++ msg), true, gon, gc, hst, oc, sgon, sgc, sm⟩ := rfl
    rw [hW]
    exact ⟨[] ++ msg, rfl, by simp, rfl, by simp⟩
  | true =>
    have hW : (handle_write_session_file sem
        ⟨some p, fc, none, shu, gon, gc, hst, oc, sgon, sgc, sm⟩ msg true).1 =
        (handle_update_session sem
          ⟨some p, [] ++ ([] ++ msg), some ([] : List Char), shu, gon, gc, hst, oc,
           sgon, sgc, sm⟩).1 := rfl
    rw [hW]
    have hframe := handle_update_session_frame sem
      ⟨some p, [] ++ ([] ++ msg), some ([] : List Char), shu, gon, gc, hst, oc, sgon, sgc, sm⟩
    refine ⟨[], hframe.2.1, ?_, ?_, fun _ => rfl⟩
    · rw [hframe.1, List.append_nil]
      simp
    · rw [hframe.2.2.2]

theorem applyWrites_inv (sem : RegexSem) (p : String) :
    ∀ (msgs : List (List Char × Bool)) (s : Sess) (acc : List Char),
      WriteInv p acc s →
      WriteInv p (acc ++ (msgs.map Prod.fst).flatten) (applyWrites sem s msgs) := by
  intro msgs
  induction msgs with
  | nil => intro s acc hinv; simpa [applyWrites] using hinv
  | cons m rest ih =>
    intro s acc hinv
    obtain ⟨msg, db⟩ := m
    have h1 := write_step sem p acc s msg db hinv
    have h2 := ih _ _ h1
    simpa [applyWrites, List.append_assoc] using h2

theorem flush_content (sem : RegexSem) (p : String) (acc : List Char) (s : Sess)
    (hinv : WriteInv p acc s) :
    (handle_flush_session_file sem s).1.fileContent = acc := by
  obtain ⟨buf, hbuf, hacc, hfile, hclean⟩ := hinv
  obtain ⟨sf, fc, wb, shu, gon, gc, hst, oc, sgon, sgc, sm⟩ := s
  dsimp only at hbuf hacc hfile hclean
  subst hbuf
  subst hfile
  cases shu with
  | false =>
    have hb : buf = [] := hclean rfl
    subst hb
    have hW : (handle_flush_session_file sem
        ⟨some p, fc, some [], false, gon, gc, hst, oc, sgon, sgc, sm⟩).1 =
        ⟨some p, fc, some [], false, gon, gc, hst, oc, sgon, sgc, sm⟩ := rfl
    rw [hW]
    simpa using hacc
  | true =>
    have hW : (handle_flush_session_file sem
        ⟨some p, fc, some buf, true, gon, gc, hst, oc, sgon, sgc, sm⟩).1 =
        (handle_update_session sem
          ⟨some p, fc ++ buf, some ([] : List Char), false, gon, gc, hst, oc,
           sgon, sgc, sm⟩).1 := rfl
    rw [hW]
    have hframe := handle_update_session_frame sem
      ⟨some p, fc ++ buf, some ([] : List Char), false, gon, gc, hst, oc, sgon, sgc, sm⟩
    rw [hframe.1]
    exact hacc

/-- C3: writing `s_1, ..., s_n` through WriteSessionFile (under any debounce
timing) and then flushing leaves the session file's byte content equal to
the concatenation of the `s_i` in order, on any session whose file is
assigned and whose writer has not been created yet. -/
theorem c3_write_flush_concat :
    ∀ (sem : RegexSem) (s : Sess) (p : String) (msgs : List (List Char × Bool)),
      s.session_file = some p → s.writerBuf = none → msgs ≠ [] →
      (handle_flush_session_file sem (applyWrites sem s msgs)).1.fileContent =
        (msgs.map Prod.fst).flatten := by
  intro sem s p msgs hf hw hne
  cases msgs with
  | nil => exact absurd rfl hne
  | cons m rest =>
    obtain ⟨msg, db⟩ := m
    have h1 := write_first sem p s msg db hw hf
    have h2 := applyWrites_inv sem p rest _ msg h1
    have h3 := flush_content sem p _ _ h2
    simpa [applyWrites] using h3

/-- Witness for C3: two writes (one debounced) then flush. -/
theorem c3_write_flush_concat_witness :
    (handle_flush_session_file semF (applyWrites semF
        (handle_set_session_file initSess (SessionFileArg.Existed "p" [])).1
        [("ab".toList, false), ("cd".toList, true)])).1.fileContent =
      ([("ab".toList, false), ("cd".toList, true)].map Prod.fst).flatten :=
  c3_write_flush_concat semF
    (handle_set_session_file initSess (SessionFileArg.Existed "p" [])).1 "p"
    [("ab".toList, false), ("cd".toList, true)] rfl rfl (by decide)

/-- C10: the first WriteSessionFile lazily creates the writer with
create/truncate semantics: a session set up over an existing file with
content `c0` still shows `c0` before the first write, but after any
non-empty write sequence the file plus buffered bytes hold exactly the
written bytes — `c0` is erased, not appended to. -/
theorem c10_truncate_on_first_write :
    ∀ (sem : RegexSem) (p : String) (c0 : List Char)
      (msgs : List (List Char × Bool)), msgs ≠ [] →
      (handle_set_session_file initSess (SessionFileArg.Existed p c0)).1.fileContent = c0 ∧
      (applyWrites sem (handle_set_session_file initSess
          (SessionFileArg.Existed p c0)).1 msgs).fileContent ++
        ((applyWrites sem (handle_set_session_file initSess
          (SessionFileArg.Existed p c0)).1 msgs).writerBuf.getD []) =
        (msgs.map Prod.fst).flatten := by
  intro sem p c0 msgs hne
  refine ⟨rfl, ?_⟩
  cases msgs with
  | nil => exact absurd rfl hne
  | cons m rest =>
    obtain ⟨msg, db⟩ := m
    have h1 := write_first sem p
      (handle_set_session_file initSess (SessionFileArg.Existed p c0)).1 msg db rfl rfl
    have h2 := applyWrites_inv sem p rest _ msg h1
    obtain ⟨buf, hbuf, hacc, _, _⟩ := h2
    simp only [applyWrites]
    rw [hbuf]
    simpa [applyWrites] using hacc

/-- Witness for C10: one write over a pre-filled Existed session file. -/
theorem c10_truncate_on_first_write_witness :
    (handle_set_session_file initSess
        (SessionFileArg.Existed "p" ("old".toList))).1.fileContent = "old".toList ∧
    (applyWrites semF (handle_set_session_file initSess
        (SessionFileArg.Existed "p" ("old".toList))).1
        [("new".toList, false)]).fileContent ++
      ((applyWrites semF (handle_set_session_file initSess
        (SessionFileArg.Existed "p" ("old".toList))).1
        [("new".toList, false)]).writerBuf.getD []) =
      ([(("new".toList : List Char), false)].map Prod.fst).flatten :=
  c10_truncate_on_first_write semF "p" ("old".toList) [("new".toList, false)] (by decide)

/-- C4: the search-holder state machine: GetSearchHolder hands out a fresh
empty holder over the session file from `NotInited` and the stored holder
from `Available`, moving to `InUse` in both cases; in `InUse` it fails with
holder-busy leaving the state unchanged; SetSearchHolder succeeds only in
`InUse` — a supplied holder goes to `Available`, none to `NotInited` — and
otherwise errors without changing state. -/
theorem c4_holder_state_machine :
    ∀ (s : Sess) (f : String) (h : SearchHolder),
      (s.holderSt = HolderSt.NotInited → s.session_file = some f →
        handle_get_search_holder s =
          ({ s with holderSt := HolderSt.InUse }, .ok (SearchHolder.new f []))) ∧
      (s.holderSt = HolderSt.Available h →
        handle_get_search_holder s = ({ s with holderSt := HolderSt.InUse }, .ok h)) ∧
      (s.holderSt = HolderSt.InUse →
        handle_get_search_holder s = (s, .error NErr.holderBusy)) ∧
      (s.holderSt = HolderSt.InUse →
        handle_set_search_holder s (some h) =
          ({ s with holderSt := HolderSt.Available h }, .ok ()) ∧
        handle_set_search_holder s none =
          ({ s with holderSt := HolderSt.NotInited }, .ok ())) ∧
      (s.holderSt ≠ HolderSt.InUse →
        ∀ h? : Option SearchHolder,
          handle_set_search_holder s h? = (s, .error NErr.holderNotInUse)) := by
  intro s f h
  obtain ⟨sf, fc, wb, shu, gon, gc, hst, oc, sgon, sgc, sm⟩ := s
  refine ⟨?_, ?_, ?_, ?_, ?_⟩
  · intro h1 h2
    dsimp only at h1 h2
    subst h1
    subst h2
    rfl
  · intro h1
    dsimp only at h1
    subst h1
    rfl
  · intro h1
    dsimp only at h1
    subst h1
    rfl
  · intro h1
    dsimp only at h1
    subst h1
    exact ⟨rfl, rfl⟩
  · intro h1 h?
    dsimp only at h1
    cases hst with
    | NotInited => cases h? <;> rfl
    | Available hh => cases h? <;> rfl
    | InUse => exact absurd rfl h1

/-- Witness for C4: each transition exercised at a concrete session state. -/
theorem c4_holder_state_machine_witness :
    handle_get_search_holder sessNotInited =
      ({ sessNotInited with holderSt := HolderSt.InUse }, .ok (SearchHolder.new "p" [])) ∧
    handle_get_search_holder sessAvail =
      ({ sessAvail with holderSt := HolderSt.InUse }, .ok (SearchHolder.new "p" s1Filters)) ∧
    handle_get_search_holder sessInUse = (sessInUse, .error NErr.holderBusy) ∧
    (handle_set_search_holder sessInUse (some (SearchHolder.new "p" s1Filters)) =
      ({ sessInUse with holderSt := HolderSt.Available (SearchHolder.new "p" s1Filters) },
        .ok ()) ∧
     handle_set_search_holder sessInUse none =
      ({ sessInUse with holderSt := HolderSt.NotInited }, .ok ())) ∧
    (∀ h? : Option SearchHolder,
      handle_set_search_holder sessNotInited h? =
        (sessNotInited, .error NErr.holderNotInUse)) :=
  ⟨(c4_holder_state_machine sessNotInited "p" (SearchHolder.new "p" s1Filters)).1 rfl rfl,
   (c4_holder_state_machine sessAvail "p" (SearchHolder.new "p" s1Filters)).2.1 rfl,
   (c4_holder_state_machine sessInUse "p" (SearchHolder.new "p" s1Filters)).2.2.1 rfl,
   (c4_holder_state_machine sessInUse "p" (SearchHolder.new "p" s1Filters)).2.2.2.1 rfl,
   fun h? =>
     (c4_holder_state_machine sessNotInited "p" (SearchHolder.new "p" s1Filters)).2.2.2.2
       (by decide) h?⟩

/-- Counterexample to C5 as stated: a reachable run — adopt an existing
three-line session file, update (the grabber counts 3 lines), then a first
non-debounced write (the lazy writer creation truncates the file on disk) —
after which UpdateSession replies `true` although the line count dropped
from 3 to 0, i.e. it did not increase. -/
theorem c5_counterexample :
    (handle_update_session semF c5run2).2.2 = Except.ok true ∧
    linesCount c5run2.fileContent < c5run2.grabberCount :=
  ⟨rfl, by decide⟩

/-- C5 (amended): UpdateSession returns true iff the rescanned line count
differs from the previous grabber count (the code compares for inequality,
not increase: over an adopted session file the first write truncates, so
the count can decrease while `true` is returned); an immediately repeated
UpdateSession with no intervening writes leaves the state unchanged, emits
no events, and returns false. -/
theorem c5_update_session_amended :
    ∀ (sem : RegexSem) (s : Sess), s.grabberOn = true →
      ((handle_update_session sem s).2.2 = .ok true ↔
        linesCount s.fileContent ≠ s.grabberCount) ∧
      ((handle_update_session sem s).2.2 = .ok false ↔
        linesCount s.fileContent = s.grabberCount) ∧
      handle_update_session sem (handle_update_session sem s).1 =
        ((handle_update_session sem s).1, [], .ok false) := by
  intro sem s hg
  obtain ⟨sf, fc, wb, shu, gon, gc, hst, oc, sgon, sgc, sm⟩ := s
  dsimp only at hg
  subst hg
  by_cases hc : gc = linesCount fc
  · subst hc
    have hEq : handle_update_session sem
        ⟨sf, fc, wb, shu, true, linesCount fc, hst, oc, sgon, sgc, sm⟩ =
        (⟨sf, fc, wb, shu, true, linesCount fc, hst, oc, sgon, sgc, sm⟩, [], .ok false) := by
      simp [handle_update_session]
    rw [hEq]
    exact ⟨by simp, by simp, by rw [hEq]⟩
  · cases hst with
    | NotInited =>
      have hEq : handle_update_session sem
          ⟨sf, fc, wb, shu, true, gc, HolderSt.NotInited, oc, sgon, sgc, sm⟩ =
          (⟨sf, fc, wb, shu, true, linesCount fc, HolderSt.NotInited, oc, sgon, sgc, sm⟩,
           [Event.StreamUpdated (linesCount fc)], .ok true) := by
        simp [handle_update_session, hc]
      have hEq2 : handle_update_session sem
          ⟨sf, fc, wb, shu, true, linesCount fc, HolderSt.NotInited, oc, sgon, sgc, sm⟩ =
          (⟨sf, fc, wb, shu, true, linesCount fc, HolderSt.NotInited, oc, sgon, sgc, sm⟩,
           [], .ok false) := by
        simp [handle_update_session]
      rw [hEq]
      refine ⟨by simp [Ne, eq_comm, hc], by simp [Ne, eq_comm, hc], by rw [hEq2]⟩
    | InUse =>
      have hEq : handle_update_session sem
          ⟨sf, fc, wb, shu, true, gc, HolderSt.InUse, oc, sgon, sgc, sm⟩ =
          (⟨sf, fc, wb, shu, true, linesCount fc, HolderSt.InUse, oc, sgon, sgc, sm⟩,
           [Event.StreamUpdated (linesCount fc)], .ok true) := by
        simp [handle_update_session, hc]
      have hEq2 : handle_update_session sem
          ⟨sf, fc, wb, shu, true, linesCount fc, HolderSt.InUse, oc, sgon, sgc, sm⟩ =
          (⟨sf, fc, wb, shu, true, linesCount fc, HolderSt.InUse, oc, sgon, sgc, sm⟩,
           [], .ok false) := by
        simp [handle_update_session]
      rw [hEq]
      refine ⟨by simp [Ne, eq_comm, hc], by simp [Ne, eq_comm, hc], by rw [hEq2]⟩
    | Available h =>
      cases hrun : execute_search sem h fc oc with
      | ok o =>
        have hEq : handle_update_session sem
            ⟨sf, fc, wb, shu, true, gc, HolderSt.Available h, oc, sgon, sgc, sm⟩ =
            (⟨sf, fc, wb, shu, true, linesCount fc, HolderSt.Available o.holder,
              o.outContent, true, linesCount o.outContent.toList, sm ++ o.found⟩,
             [Event.StreamUpdated (linesCount fc),
              Event.SearchUpdated (linesCount o.outContent.toList),
              Event.SearchMapUpdated (some (mapAsStr o.found))], .ok true) := by
          simp [handle_update_session, hc, hrun]
        have hEq2 : handle_update_session sem
            ⟨sf, fc, wb, shu, true, linesCount fc, HolderSt.Available o.holder,
             o.outContent, true, linesCount o.outContent.toList, sm ++ o.found⟩ =
            (⟨sf, fc, wb, shu, true, linesCount fc, HolderSt.Available o.holder,
              o.outContent, true, linesCount o.outContent.toList, sm ++ o.found⟩,
             [], .ok false) := by
          simp [handle_update_session]
        rw [hEq]
        refine ⟨by simp [Ne, eq_comm, hc], by simp [Ne, eq_comm, hc], by rw [hEq2]⟩
      | error e =>
        have hEq : handle_update_session sem
            ⟨sf, fc, wb, shu, true, gc, HolderSt.Available h, oc, sgon, sgc, sm⟩ =
            (⟨sf, fc, wb, shu, true, linesCount fc, HolderSt.Available h, oc, sgon, sgc, sm⟩,
             [Event.StreamUpdated (linesCount fc)], .ok true) := by
          simp [handle_update_session, hc, hrun]
        have hEq2 : handle_update_session sem
            ⟨sf, fc, wb, shu, true, linesCount fc, HolderSt.Available h, oc, sgon, sgc, sm⟩ =
            (⟨sf, fc, wb, shu, true, linesCount fc, HolderSt.Available h, oc, sgon, sgc, sm⟩,
             [], .ok false) := by
          simp [handle_update_session]
        rw [hEq]
        refine ⟨by simp [Ne, eq_comm, hc], by simp [Ne, eq_comm, hc], by rw [hEq2]⟩

/-- Witness for C5 (amended): the state after adopting a three-line session
file and updating once. -/
theorem c5_update_session_amended_witness :
    ((handle_update_session semF c5run1).2.2 = .ok true ↔
      linesCount c5run1.fileContent ≠ c5run1.grabberCount) ∧
    ((handle_update_session semF c5run1).2.2 = .ok false ↔
      linesCount c5run1.fileContent = c5run1.grabberCount) ∧
    handle_update_session semF (handle_update_session semF c5run1).1 =
      ((handle_update_session semF c5run1).1, [], .ok false) :=
  c5_update_session_amended semF c5run1 rfl

/-! ### Helper lemmas: GrabSearch run compaction -/

theorem ivFrom_snoc : ∀ (n lo : Nat), ivFrom lo (n + 1) = ivFrom lo n ++ [lo + n] := by
  intro n
  induction n with
  | zero => intro lo; simp [ivFrom]
  | succ n ih =>
    intro lo
    rw [ivFrom, ih (lo + 1), ivFrom]
    have h1 : lo + 1 + n = lo + (n + 1) := by omega
    rw [List.cons_append, h1]

theorem iv_self (p : Nat) : iv p p = [p] := by
  have h1 : p + 1 - p = 1 := by omega
  rw [iv, h1]
  rfl

theorem iv_snoc (from_pos to_pos : Nat) (h : from_pos ≤ to_pos + 1) :
    iv from_pos (to_pos + 1) = iv from_pos to_pos ++ [to_pos + 1] := by
  rw [iv, iv]
  have h1 : to_pos + 1 + 1 - from_pos = (to_pos + 1 - from_pos) + 1 := by omega
  have h2 : from_pos + (to_pos + 1 - from_pos) = to_pos + 1 := by omega
  rw [h1, ivFrom_snoc, h2]

theorem grabRanges_spec :
    ∀ (rest : List Nat) (from_pos to_pos : Nat) (acc : List (Nat × Nat)),
      List.Chain' (· < ·) (to_pos :: rest) → from_pos ≤ to_pos →
      ∃ done f t,
        specRunsAux from_pos to_pos rest = done ++ [(f, t)] ∧
        grabRangesTail rest from_pos to_pos acc = (acc ++ done, f, t) ∧
        (∀ r ∈ done, r.1 < f) ∧
        from_pos ≤ f ∧ f ≤ t := by
  intro rest
  induction rest with
  | nil =>
    intro from_pos to_pos acc _ hle
    exact ⟨[], from_pos, to_pos, rfl, by simp [grabRangesTail], by simp, Nat.le_refl _, hle⟩
  | cons p rest ih =>
    intro from_pos to_pos acc hchain hle
    have hlt : to_pos < p := (List.chain'_cons.1 hchain).1
    have hchain2 : List.Chain' (· < ·) (p :: rest) := (List.chain'_cons.1 hchain).2
    by_cases hp : p = to_pos + 1
    · subst hp
      obtain ⟨done, f, t, h1, h2, h3, h4, h5⟩ :=
        ih from_pos (to_pos + 1) acc hchain2 (by omega)
      refine ⟨done, f, t, ?_, ?_, h3, by omega, h5⟩
      · simp [specRunsAux, h1]
      · simp [grabRangesTail, h2]
    · obtain ⟨done, f, t, h1, h2, h3, h4, h5⟩ :=
        ih p p (acc ++ [(from_pos, to_pos)]) hchain2 (Nat.le_refl p)
      refine ⟨(from_pos, to_pos) :: done, f, t, ?_, ?_, ?_, by omega, h5⟩
      · rw [specRunsAux]
        rw [if_neg hp, h1]
        rfl
      · rw [grabRangesTail]
        rw [if_pos (by omega : to_pos + 1 ≠ p), h2]
        simp [List.append_assoc]
      · intro r hr
        rcases List.mem_cons.1 hr with rfl | hr
        · dsimp only
          omega
        · exact h3 r hr

theorem specRunsAux_bounds :
    ∀ (rest : List Nat) (from_pos to_pos : Nat),
      List.Chain' (· < ·) (to_pos :: rest) → from_pos ≤ to_pos →
      ∀ r ∈ specRunsAux from_pos to_pos rest, r.1 ≤ r.2 ∧ r.2 ∈ to_pos :: rest := by
  intro rest
  induction rest with
  | nil =>
    intro from_pos to_pos _ hle r hr
    simp only [specRunsAux, List.mem_singleton] at hr
    subst hr
    exact ⟨hle, by simp⟩
  | cons p rest ih =>
    intro from_pos to_pos hchain hle r hr
    have hlt : to_pos < p := (List.chain'_cons.1 hchain).1
    have hchain2 : List.Chain' (· < ·) (p :: rest) := (List.chain'_cons.1 hchain).2
    by_cases hp : p = to_pos + 1
    · subst hp
      rw [specRunsAux, if_pos rfl] at hr
      obtain ⟨hr1, hr2⟩ := ih from_pos (to_pos + 1) hchain2 (by omega) r hr
      exact ⟨hr1, List.mem_cons_of_mem _ hr2⟩
    · rw [specRunsAux, if_neg hp] at hr
      rcases List.mem_cons.1 hr with rfl | hr
      · exact ⟨hle, by simp⟩
      · obtain ⟨hr1, hr2⟩ := ih p p hchain2 (Nat.le_refl p) r hr
        rcases List.mem_cons.1 hr2 with h | h
        · exact ⟨hr1, by simp [h]⟩
        · exact ⟨hr1, by simp [List.mem_cons_of_mem, h]⟩

theorem specRunsAux_flatten :
    ∀ (rest : List Nat) (from_pos to_pos : Nat),
      List.Chain' (· < ·) (to_pos :: rest) → from_pos ≤ to_pos →
      ((specRunsAux from_pos to_pos rest).map fun r => iv r.1 r.2).flatten =
        iv from_pos to_pos ++ rest := by
  intro rest
  induction rest with
  | nil => intro from_pos to_pos _ _; simp [specRunsAux]
  | cons p rest ih =>
    intro from_pos to_pos hchain hle
    have hlt : to_pos < p := (List.chain'_cons.1 hchain).1
    have hchain2 : List.Chain' (· < ·) (p :: rest) := (List.chain'_cons.1 hchain).2
    by_cases hp : p = to_pos + 1
    · subst hp
      rw [specRunsAux, if_pos rfl, ih from_pos (to_pos + 1) hchain2 (by omega),
        iv_snoc from_pos to_pos (by omega)]
      simp
    · rw [specRunsAux, if_neg hp]
      simp only [List.map_cons, List.flatten_cons]
      rw [ih p p hchain2 (Nat.le_refl p), iv_self]
      simp

theorem computeRanges_sorted (nums : List Nat)
    (hs : List.Chain' (· < ·) nums) : computeRanges nums = specRuns nums := by
  cases nums with
  | nil => rfl
  | cons p rest =>
    obtain ⟨done, f, t, h1, h2, h3, _, _⟩ :=
      grabRanges_spec rest p p [] hs (Nat.le_refl p)
    rw [specRuns, h1]
    simp only [computeRanges, h2, List.nil_append]
    cases done with
    | nil => rfl
    | cons d ds =>
      rw [List.getLast?_eq_getLast_of_ne_nil (List.cons_ne_nil d ds)]
      have hmem : (d :: ds).getLast (List.cons_ne_nil d ds) ∈ d :: ds :=
        List.getLast_mem _
      have hne : ((d :: ds).getLast (List.cons_ne_nil d ds)).1 ≠ f :=
        Nat.ne_of_lt (h3 _ hmem)
      simp [hne]

theorem tagElems_iv (lines : List String) :
    ∀ (n lo row : Nat),
      tagElems lo row (((ivFrom lo n).map fun m => lines.getD m "").map fun c =>
        GrabbedElement.mk c none none) =
      (numbered row (ivFrom lo n)).map fun q =>
        GrabbedElement.mk (lines.getD q.2 "") (some q.2) (some q.1) := by
  intro n
  induction n with
  | zero => intro lo row; rfl
  | succ n ih =>
    intro lo row
    simp only [ivFrom, List.map_cons, tagElems, numbered]
    rw [ih (lo + 1) (row + 1)]

theorem drop_cons_getD (lines : List String) :
    ∀ (lo : Nat), lo < lines.length →
      lines.drop lo = lines.getD lo "" :: lines.drop (lo + 1) := by
  induction lines with
  | nil => intro lo h; simp at h
  | cons x xs ih =>
    intro lo h
    cases lo with
    | zero => rfl
    | succ lo =>
      have h2 : lo < xs.length := by simpa using h
      simpa [List.getD] using ih lo h2

theorem drop_take_getD (lines : List String) :
    ∀ (c lo : Nat), lo + c ≤ lines.length →
      (lines.drop lo).take c = (ivFrom lo c).map fun m => lines.getD m "" := by
  intro c
  induction c with
  | zero => intro lo _; simp [ivFrom]
  | succ c ih =>
    intro lo hle
    rw [drop_cons_getD lines lo (by omega), List.take_succ_cons, ih (lo + 1) (by omega)]
    rfl

theorem grab_content_eq (lines : List String) (lo hi : Nat)
    (h1 : lo ≤ hi) (h2 : hi < lines.length) :
    grab_content lines lo hi = ((iv lo hi).map fun m => lines.getD m "").map fun c =>
      GrabbedElement.mk c none none := by
  rw [grab_content, iv, drop_take_getD lines (hi + 1 - lo) lo (by omega)]

theorem numbered_append {α : Type} :
    ∀ (l1 l2 : List α) (k : Nat),
      numbered k (l1 ++ l2) = numbered k l1 ++ numbered (k + l1.length) l2 := by
  intro l1
  induction l1 with
  | nil => intro l2 k; simp [numbered]
  | cons a as ih =>
    intro l2 k
    simp only [List.cons_append, numbered, List.length_cons, List.append_eq]
    rw [ih l2 (k + 1)]
    have h1 : k + 1 + as.length = k + (as.length + 1) := by omega
    rw [h1]

theorem numbered_length {α : Type} :
    ∀ (l : List α) (k : Nat), (numbered k l).length = l.length := by
  intro l
  induction l with
  | nil => intro k; rfl
  | cons a as ih => intro k; simp [numbered, ih]

theorem ivFrom_length : ∀ (n lo : Nat), (ivFrom lo n).length = n := by
  intro n
  induction n with
  | zero => intro lo; rfl
  | succ n ih => intro lo; simp [ivFrom, ih]

theorem tagRuns_eq (lines : List String) :
    ∀ (runs : List (Nat × Nat)) (row : Nat),
      (∀ r ∈ runs, r.1 ≤ r.2 ∧ r.2 < lines.length) →
      tagRuns lines row runs =
        (numbered row (ivJoin runs)).map fun q =>
          GrabbedElement.mk (lines.getD q.2 "") (some q.2) (some q.1) := by
  intro runs
  induction runs with
  | nil => intro row _; rfl
  | cons r rest ih =>
    intro row hb
    obtain ⟨lo, hi⟩ := r
    have hr := hb (lo, hi) (List.mem_cons_self _ _)
    simp only [tagRuns]
    rw [grab_content_eq lines lo hi hr.1 hr.2]
    rw [show iv lo hi = ivFrom lo (hi + 1 - lo) from rfl]
    rw [tagElems_iv lines (hi + 1 - lo) lo row]
    rw [ih _ (fun q hqm => hb q (List.mem_cons_of_mem _ hqm))]
    rw [List.length_map, numbered_length]
    rw [show ivJoin ((lo, hi) :: rest) = iv lo hi ++ ivJoin rest from rfl]
    rw [numbered_append, List.map_append]
    rw [show iv lo hi = ivFrom lo (hi + 1 - lo) from rfl, ivFrom_length]

theorem handle_grab_search_sorted :
    ∀ (lines : List String) (rangeStart : Nat) (nums : List Nat),
      List.Chain' (· < ·) nums → (∀ n ∈ nums, n < lines.length) →
      handle_grab_search lines rangeStart nums =
        (numbered rangeStart nums).map fun q =>
          GrabbedElement.mk (lines.getD q.2 "") (some q.2) (some q.1) := by
  intro lines rangeStart nums hs hb
  rw [handle_grab_search, computeRanges_sorted nums hs]
  cases nums with
  | nil => rfl
  | cons p rest =>
    rw [specRuns]
    have hbounds : ∀ r ∈ specRunsAux p p rest, r.1 ≤ r.2 ∧ r.2 < lines.length := by
      intro r hr
      obtain ⟨h1, h2⟩ := specRunsAux_bounds rest p p hs (Nat.le_refl p) r hr
      exact ⟨h1, hb r.2 h2⟩
    rw [tagRuns_eq lines _ rangeStart hbounds]
    have hflat : ivJoin (specRunsAux p p rest) = p :: rest := by
      rw [ivJoin, specRunsAux_flatten rest p p hs (Nat.le_refl p), iv_self]
      rfl
    rw [hflat]

/-- Counterexample to C8 as stated: on the parsed numbers [3, 4, 3] the
maximal runs breaking exactly at next ≠ prev + 1 are [3..=4] and [3..=3],
but the source's final-push condition sees the pending run's start equal to
the last pushed range's start and drops the final run: only one range is
grabbed and two elements are returned instead of three. -/
theorem c8_counterexample :
    computeRanges [3, 4, 3] = [(3, 4)] ∧
    specRuns [3, 4, 3] = [(3, 4), (3, 3)] ∧
    computeRanges [3, 4, 3] ≠ specRuns [3, 4, 3] ∧
    (handle_grab_search s6Lines 0 [3, 4, 3]).length = 2 :=
  ⟨rfl, rfl, by decide, rfl⟩

/-- C8 (amended to strictly increasing parsed line numbers, which every
search-result file produced by the engine satisfies): GrabSearch coalesces
the numbers into the maximal contiguous inclusive runs breaking exactly
when next ≠ prev + 1, issues one content grab per run, and tags element j
of a run starting at lo with pos = lo + j and row = range.start + number of
elements already emitted — equivalently, output element k carries
pos = nums[k], row = range.start + k, and the grabbed line's content; on
the S6 result file 3,4,5,9,10,12 the ranges are [3..=5],[9..=10],[12..=12]
and six elements come back with rows 0..5 and pos 3,4,5,9,10,12. -/
theorem c8_grab_search_amended :
    (∀ nums : List Nat, List.Chain' (· < ·) nums →
      computeRanges nums = specRuns nums) ∧
    (∀ (lines : List String) (rangeStart : Nat) (nums : List Nat),
      List.Chain' (· < ·) nums → (∀ n ∈ nums, n < lines.length) →
      handle_grab_search lines rangeStart nums =
        (numbered rangeStart nums).map fun q =>
          GrabbedElement.mk (lines.getD q.2 "") (some q.2) (some q.1)) ∧
    computeRanges s6Nums = [(3, 5), (9, 10), (12, 12)] ∧
    handle_grab_search s6Lines 0 s6Nums =
      [⟨"line3", some 3, some 0⟩, ⟨"line4", some 4, some 1⟩,
       ⟨"line5", some 5, some 2⟩, ⟨"line9", some 9, some 3⟩,
       ⟨"line10", some 10, some 4⟩, ⟨"line12", some 12, some 5⟩] :=
  ⟨computeRanges_sorted, handle_grab_search_sorted, rfl, rfl⟩

/-- Witness for C8 (amended): the sorted S6 numbers over thirteen lines. -/
theorem c8_grab_search_amended_witness :
    computeRanges s6Nums = specRuns s6Nums ∧
    handle_grab_search s6Lines 0 s6Nums =
      (numbered 0 s6Nums).map fun q =>
        GrabbedElement.mk (s6Lines.getD q.2 "") (some q.2) (some q.1) :=
  ⟨c8_grab_search_amended.1 s6Nums (by norm_num [s6Nums, List.chain'_cons]),
   c8_grab_search_amended.2.1 s6Lines 0 s6Nums
     (by norm_num [s6Nums, List.chain'_cons]) (by decide)⟩

end Chipmunk
